import Mathlib

/-!
Verification of the behavioural-cloning (BC) updater
`mlagents/trainers/components/bc/module_torch.py` (class TorchBCModule).

The updater is embedded shallowly:

* The module state (`BCState`) carries the fields the Python object holds:
  `current_lr`, `n_sequences`, `num_epoch`, `sequence_length`,
  `samples_per_update`, `has_updated`, the policy parameters, the optimizer
  state and the demonstration buffer.  Parameters, optimizer state and buffer
  are abstract type parameters: `update()` only threads them through the
  gradient-step and shuffle operations, which are supplied as functions
  (`GradStep`, `BufferOps`).  Learning rate and losses are modelled as
  rationals (every IEEE float value is rational); `np.mean` of an empty list
  is NaN, modelled as `none : Option ℚ`.
* `update` follows the Python control flow line by line and additionally
  records a trace of the observable calls it makes (`BCEvent.shuffleEv` for
  each in-place buffer shuffle, `BCEvent.batchEv start stop` for each
  `make_mini_batch(start, stop)` slice / gradient step) together with the
  list of recorded per-mini-batch losses.
* The loss function `_behavioral_cloning_loss` is embedded over ℝ with
  matrices as lists of rows (row = one sample of the batch).
-/

namespace MLAgentsBC

/-- Observable calls made by `update()`: one `shuffleEv` per in-place buffer
shuffle, one `batchEv start stop` per `make_mini_batch(start, stop)` slice
(each such slice is followed by exactly one gradient step). -/
inductive BCEvent where
  | shuffleEv : BCEvent
  | batchEv : ℕ → ℕ → BCEvent
deriving DecidableEq

/-- The operations the demonstration buffer supports that `update()` uses:
`num_experiences` and in-place `shuffle` (abstract, since the shuffle is
random). -/
structure BufferOps (B : Type) where
  numExp : B → ℕ
  shuffle : B → B

/-- One gradient step (`_update_batch`): from the policy parameters, the
optimizer state, the (shuffled) buffer and the slice bounds, produce new
parameters, new optimizer state and the recorded scalar loss. -/
def GradStep (P O B : Type) : Type := P → O → B → ℕ → ℕ → P × O × ℚ

/-- The fields of a `TorchBCModule` that `update()` reads or writes. -/
structure BCState (P O B : Type) where
  current_lr : ℚ
  n_sequences : ℕ
  num_epoch : ℕ
  sequence_length : ℕ
  samples_per_update : ℕ
  has_updated : Bool
  params : P
  optState : O
  demonstration_buffer : B
deriving DecidableEq

/-- Mutable state threaded through the epoch/mini-batch loops of `update()`,
together with the recorded losses and the trace of observable calls. -/
structure LoopState (P O B : Type) where
  params : P
  optState : O
  buffer : B
  batch_losses : List ℚ
  trace : List BCEvent
deriving DecidableEq

/-- What one `update()` call produces: the new module state, the returned
metrics mapping, the recorded per-mini-batch losses and the call trace. -/
structure UpdateResult (P O B : Type) where
  state : BCState P O B
  metrics : List (String × Option ℚ)
  batch_losses : List ℚ
  trace : List BCEvent

/-- The single key of the mapping returned by `update()`. -/
def pretrainingLossKey : String := "Losses/Pretraining Loss"

/-- `np.mean` on a list of scalars: NaN (`none`) on the empty list, otherwise
the arithmetic mean. -/
def npMean (l : List ℚ) : Option ℚ :=
  if l = [] then none else some (l.sum / l.length)

/-- Line 78: `max_batches = self.samples_per_update // self.n_sequences`. -/
def maxBatches {P O B : Type} (s : BCState P O B) : ℕ :=
  s.samples_per_update / s.n_sequences

/-- Lines 85-88: `num_batches = possible_batches if max_batches == 0 else
min(possible_batches, max_batches)`. -/
def epochNumBatches (possible_batches max_batches : ℕ) : ℕ :=
  if max_batches = 0 then possible_batches else min possible_batches max_batches

variable {P O B : Type}

/-- Lines 90-97, one iteration of the inner loop of `update()`: slice
`[i * n_sequences * sequence_length, (i+1) * n_sequences * sequence_length)`
out of the buffer, run one gradient step on it, append the recorded loss. -/
def innerStep (step : GradStep P O B) (nSeq seqLen : ℕ)
    (acc : LoopState P O B) (i : ℕ) : LoopState P O B :=
  let start := i * nSeq * seqLen
  let stop := (i + 1) * nSeq * seqLen
  let out := step acc.params acc.optState acc.buffer start stop
  { params := out.1
    optState := out.2.1
    buffer := acc.buffer
    batch_losses := acc.batch_losses ++ [out.2.2]
    trace := acc.trace ++ [BCEvent.batchEv start stop] }

/-- Lines 82-97, one epoch of `update()`: shuffle the buffer in place, pick
`num_batches` from the loop-invariant `possible_batches` / `max_batches`,
then run `num_batches // sequence_length` gradient steps. -/
def runEpoch (ops : BufferOps B) (step : GradStep P O B)
    (nSeq seqLen possible_batches max_batches : ℕ)
    (ls : LoopState P O B) : LoopState P O B :=
  let num_batches := epochNumBatches possible_batches max_batches
  (List.range (num_batches / seqLen)).foldl (innerStep step nSeq seqLen)
    { ls with buffer := ops.shuffle ls.buffer
              trace := ls.trace ++ [BCEvent.shuffleEv] }

/-- `TorchBCModule.update` (lines 62-100).  Early-exit with loss `0` when
`current_lr <= 0`; otherwise run `num_epoch` epochs over the shuffled buffer
and return `np.mean` of the recorded losses under the single metrics key. -/
def update (ops : BufferOps B) (step : GradStep P O B) (s : BCState P O B) :
    UpdateResult P O B :=
  if s.current_lr ≤ 0 then
    { state := s
      metrics := [(pretrainingLossKey, some 0)]
      batch_losses := []
      trace := [] }
  else
    let possible_demo_batches := ops.numExp s.demonstration_buffer / s.n_sequences
    let possible_batches := possible_demo_batches
    let max_batches := maxBatches s
    let final := (List.range s.num_epoch).foldl
      (fun ls _ =>
        runEpoch ops step s.n_sequences s.sequence_length possible_batches
          max_batches ls)
      { params := s.params
        optState := s.optState
        buffer := s.demonstration_buffer
        batch_losses := []
        trace := [] }
    { state := { s with params := final.params
                        optState := final.optState
                        demonstration_buffer := final.buffer
                        has_updated := true }
      metrics := [(pretrainingLossKey, npMean final.batch_losses)]
      batch_losses := final.batch_losses
      trace := final.trace }

/-- Python truthiness resolution `settings.batch_size if settings.batch_size
else default_batch_size` (lines 43-46): `None` and `0` fall back to the
default. -/
def resolveSetting (o : Option ℕ) (d : ℕ) : ℕ :=
  match o with
  | some n => if n = 0 then d else n
  | none => d

/-- The `BehavioralCloningSettings` fields the constructor reads. -/
structure BCSettings where
  strength : ℚ
  batch_size : Option ℕ
  num_epoch : Option ℕ
  samples_per_update : ℕ

/-- `TorchBCModule.__init__` (lines 12-55), restricted to the fields that
`update()` later reads.  The demonstration buffer, policy parameters and
optimizer state are taken as arguments (the demo loader and torch optimizer
are external collaborators). -/
def initModule (ops : BufferOps B) (settings : BCSettings)
    (policy_learning_rate : ℚ) (default_batch_size default_num_epoch : ℕ)
    (sequence_length : ℕ) (params : P) (optState : O) (buffer : B) :
    BCState P O B :=
  let batch_size := resolveSetting settings.batch_size default_batch_size
  { current_lr := policy_learning_rate * settings.strength
    n_sequences := max (min batch_size (ops.numExp buffer) / sequence_length) 1
    num_epoch := resolveSetting settings.num_epoch default_num_epoch
    sequence_length := sequence_length
    samples_per_update := settings.samples_per_update
    has_updated := false
    params := params
    optState := optState
    demonstration_buffer := buffer }

/-! ## The BC loss function (`_behavioral_cloning_loss`, lines 102-121)

Tensors are embedded as lists of rows over ℝ; a 2-d tensor of shape
(batch, k) is a list of `batch` rows of length `k`. -/

/-- Sum of all entries of a matrix. -/
def matSum (m : List (List ℝ)) : ℝ := (m.map List.sum).sum

/-- Number of entries of a matrix. -/
def matCount (m : List (List ℝ)) : ℕ := (m.map List.length).sum

/-- `torch.mean` over all entries of a matrix. -/
noncomputable def matMean (m : List (List ℝ)) : ℝ := matSum m / matCount m

/-- Element-wise squared differences of two equally shaped matrices. -/
def sqDiff (a b : List (List ℝ)) : List (List ℝ) :=
  a.zipWith (fun ra rb => ra.zipWith (fun x y => (x - y) ^ 2) rb) b

/-- `torch.nn.functional.mse_loss` with the default mean reduction: the mean
of the element-wise squared differences. -/
noncomputable def mse_loss (a b : List (List ℝ)) : ℝ := matMean (sqDiff a b)

/-- `log(sum(exp(xs)))`, the normalizer of `log_softmax`. -/
noncomputable def logSumExp (xs : List ℝ) : ℝ := Real.log ((xs.map Real.exp).sum)

/-- `log_softmax` along a single vector. -/
noncomputable def logSoftmax (xs : List ℝ) : List ℝ :=
  xs.map (fun x => x - logSumExp xs)

/-- Column `j` of a matrix stored as a list of rows. -/
def column (m : List (List ℝ)) (j : ℕ) : List ℝ :=
  m.map (fun row => row.getD j 0)

/-- `torch.nn.functional.log_softmax(m, dim=0)`: each entry is normalized by
the log-sum-exp of its COLUMN, i.e. across the batch dimension (this is what
line 113 of the source computes). -/
noncomputable def logSoftmaxDim0 (m : List (List ℝ)) : List (List ℝ) :=
  m.map (fun row =>
    (List.range row.length).map (fun j => row.getD j 0 - logSumExp (column m j)))

/-- Entry-wise negation of a matrix. -/
def negMat (m : List (List ℝ)) : List (List ℝ) :=
  m.map (fun row => row.map (fun x => -x))

/-- Entry-wise (Hadamard) product of two matrices. -/
def hadamard (a b : List (List ℝ)) : List (List ℝ) :=
  a.zipWith (fun ra rb => ra.zipWith (fun x y => x * y) rb) b

/-- Sum of all entries of a stacked list of matrices. -/
def stackSum (ms : List (List (List ℝ))) : ℝ := (ms.map matSum).sum

/-- Number of entries of a stacked list of matrices. -/
def stackCount (ms : List (List (List ℝ))) : ℕ := (ms.map matCount).sum

/-- `torch.mean(torch.stack ms)`: the mean over every entry of every stacked
matrix. -/
noncomputable def stackMean (ms : List (List (List ℝ))) : ℝ :=
  stackSum ms / stackCount ms

/-- Split a row into consecutive segments of the given sizes. -/
def splitSizes (sizes : List ℕ) (row : List ℝ) : List (List ℝ) :=
  match sizes with
  | [] => []
  | n :: ns => row.take n :: splitSizes ns (row.drop n)

/-- Modelled from the spec: `ModelUtils.break_into_branches` (its source,
`mlagents/trainers/torch/utils.py`, is not part of this excerpt) splits the
log-probabilities "into per-branch groups (one group per independent discrete
action dimension)"; branch `b` holds, for every sample row, the columns of
that branch (consecutive segments of sizes `act_size`). -/
def break_into_branches (m : List (List ℝ)) (act_size : List ℕ) :
    List (List (List ℝ)) :=
  (List.range act_size.length).map
    (fun b => m.map (fun row => (splitSizes act_size row).getD b []))

/-- The `expert_actions` argument of `_behavioral_cloning_loss`: a float
tensor for a continuous action space, a per-branch list of one-hot matrices
for a discrete one (built by `actions_to_onehot` in `_update_batch`). -/
inductive ExpertActs where
  | cont : List (List ℝ) → ExpertActs
  | disc : List (List (List ℝ)) → ExpertActs

/-- `TorchBCModule._behavioral_cloning_loss` (lines 102-121).  Continuous
action space: `mse_loss(selected_actions, expert_actions)`.  Discrete action
space: break the log-probabilities into branches and take the mean of the
stacked matrices `-log_softmax(branch, dim=0) * expert_one_hot_branch`. -/
noncomputable def behavioral_cloning_loss (use_continuous_act : Bool)
    (act_size : List ℕ) (selected_actions : List (List ℝ))
    (log_probs : List (List ℝ)) (expert_actions : ExpertActs) : ℝ :=
  match use_continuous_act, expert_actions with
  | true, ExpertActs.cont ea => mse_loss selected_actions ea
  | false, ExpertActs.disc eo =>
    let log_prob_branches := break_into_branches log_probs act_size
    stackMean ((log_prob_branches.zip eo).map
      (fun p => hadamard (negMat (logSoftmaxDim0 p.1)) p.2))
  | _, _ => 0

/-- The spec's description of the continuous-case loss, written from its
words: "mean squared error between the policy-sampled actions and the expert
actions (element-wise squared differences averaged over all elements)". -/
noncomputable def mseSpec (a b : List (List ℝ)) : ℝ :=
  ((a.flatten.zip b.flatten).map (fun p => (p.1 - p.2) ^ 2)).sum /
    (a.flatten.zip b.flatten).length

/-- The discrete-case loss exactly as claim C2 words it: the log-softmax
normalizes "each sample's log-probabilities over that branch's actions",
i.e. `logSoftmax` is applied per ROW before weighting by the one-hot expert
actions and averaging. -/
noncomputable def perSampleDiscreteLoss (act_size : List ℕ)
    (log_probs : List (List ℝ)) (expert_onehots : List (List (List ℝ))) : ℝ :=
  stackMean (((break_into_branches log_probs act_size).zip expert_onehots).map
    (fun p => hadamard (negMat (p.1.map logSoftmax)) p.2))

/-! ## Characterization of the call trace and concrete instances -/

/-- The observable calls one epoch of `update()` makes: one shuffle, then
`num_batches / sequence_length` mini-batch slices at consecutive
sequence-aligned offsets. -/
def epochEvents (nSeq seqLen num_batches : ℕ) : List BCEvent :=
  BCEvent.shuffleEv :: (List.range (num_batches / seqLen)).map
    (fun i => BCEvent.batchEv (i * nSeq * seqLen) ((i + 1) * nSeq * seqLen))

/-- A concrete demonstration buffer of 4 experiences with an identity
shuffle, over trivial carrier types. -/
def demoOps : BufferOps Unit := { numExp := fun _ => 4, shuffle := fun b => b }

/-- A concrete buffer with a single experience. -/
def oneOps : BufferOps Unit := { numExp := fun _ => 1, shuffle := fun b => b }

/-- A concrete empty buffer. -/
def zeroOps : BufferOps Unit := { numExp := fun _ => 0, shuffle := fun b => b }

/-- A concrete gradient step recording loss 2. -/
def demoStep : GradStep Unit Unit Unit := fun _ _ _ _ _ => ((), (), 2)

/-- A concrete gradient step recording loss 0 (a perfectly imitating
policy). -/
def stepZero : GradStep Unit Unit Unit := fun _ _ _ _ _ => ((), (), 0)

/-- A concrete module state with positive learning rate, 2 sequences per
mini-batch, sequence length 1, one epoch, no sample cap. -/
def sDemo : BCState Unit Unit Unit :=
  { current_lr := 1
    n_sequences := 2
    num_epoch := 1
    sequence_length := 1
    samples_per_update := 0
    has_updated := false
    params := ()
    optState := ()
    demonstration_buffer := () }

/-- A concrete module state whose learning rate has annealed below zero. -/
def sNeg : BCState Unit Unit Unit :=
  { current_lr := -1
    n_sequences := 1
    num_epoch := 3
    sequence_length := 2
    samples_per_update := 5
    has_updated := false
    params := ()
    optState := ()
    demonstration_buffer := () }

/-- A concrete module state with positive learning rate and one sequence per
mini-batch. -/
def sOne : BCState Unit Unit Unit :=
  { current_lr := 1
    n_sequences := 1
    num_epoch := 1
    sequence_length := 1
    samples_per_update := 0
    has_updated := false
    params := ()
    optState := ()
    demonstration_buffer := () }

/-! ## Helper lemmas on the loops of `update()` -/

theorem foldl_innerStep_buffer (step : GradStep P O B) (nSeq seqLen : ℕ)
    (l : List ℕ) (acc : LoopState P O B) :
    (l.foldl (innerStep step nSeq seqLen) acc).buffer = acc.buffer := by
  induction l generalizing acc with
  | nil => rfl
  | cons x xs ih => simp [List.foldl_cons, ih, innerStep]

theorem foldl_innerStep_trace (step : GradStep P O B) (nSeq seqLen : ℕ)
    (l : List ℕ) (acc : LoopState P O B) :
    (l.foldl (innerStep step nSeq seqLen) acc).trace =
      acc.trace ++ l.map (fun i =>
        BCEvent.batchEv (i * nSeq * seqLen) ((i + 1) * nSeq * seqLen)) := by
  induction l generalizing acc with
  | nil => simp
  | cons x xs ih => simp [List.foldl_cons, ih, innerStep]

theorem foldl_innerStep_losses_len (step : GradStep P O B) (nSeq seqLen : ℕ)
    (l : List ℕ) (acc : LoopState P O B) :
    (l.foldl (innerStep step nSeq seqLen) acc).batch_losses.length =
      acc.batch_losses.length + l.length := by
  induction l generalizing acc with
  | nil => simp
  | cons x xs ih =>
    simp [List.foldl_cons, ih, innerStep]
    omega

theorem runEpoch_buffer (ops : BufferOps B) (step : GradStep P O B)
    (nSeq seqLen pb mb : ℕ) (ls : LoopState P O B) :
    (runEpoch ops step nSeq seqLen pb mb ls).buffer = ops.shuffle ls.buffer := by
  simp [runEpoch, foldl_innerStep_buffer]

theorem runEpoch_trace (ops : BufferOps B) (step : GradStep P O B)
    (nSeq seqLen pb mb : ℕ) (ls : LoopState P O B) :
    (runEpoch ops step nSeq seqLen pb mb ls).trace =
      ls.trace ++ epochEvents nSeq seqLen (epochNumBatches pb mb) := by
  simp [runEpoch, foldl_innerStep_trace, epochEvents]

theorem runEpoch_losses_len (ops : BufferOps B) (step : GradStep P O B)
    (nSeq seqLen pb mb : ℕ) (ls : LoopState P O B) :
    (runEpoch ops step nSeq seqLen pb mb ls).batch_losses.length =
      ls.batch_losses.length + epochNumBatches pb mb / seqLen := by
  simp [runEpoch, foldl_innerStep_losses_len]

theorem foldl_runEpoch_trace (ops : BufferOps B) (step : GradStep P O B)
    (nSeq seqLen pb mb : ℕ) (n : ℕ) (ls : LoopState P O B) :
    ((List.range n).foldl
        (fun ls2 _ => runEpoch ops step nSeq seqLen pb mb ls2) ls).trace =
      ls.trace ++
        (List.replicate n (epochEvents nSeq seqLen (epochNumBatches pb mb))).flatten := by
  induction n with
  | zero => simp
  | succ k ih =>
    rw [List.range_succ, List.foldl_append]
    simp only [List.foldl_cons, List.foldl_nil]
    rw [runEpoch_trace, ih, List.replicate_succ', List.flatten_append]
    simp

theorem foldl_runEpoch_buffer (ops : BufferOps B) (step : GradStep P O B)
    (nSeq seqLen pb mb : ℕ) (n : ℕ) (ls : LoopState P O B) :
    ((List.range n).foldl
        (fun ls2 _ => runEpoch ops step nSeq seqLen pb mb ls2) ls).buffer =
      ops.shuffle^[n] ls.buffer := by
  induction n with
  | zero => simp
  | succ k ih =>
    rw [List.range_succ, List.foldl_append]
    simp only [List.foldl_cons, List.foldl_nil]
    rw [runEpoch_buffer, ih, Function.iterate_succ_apply']

theorem foldl_runEpoch_losses_len (ops : BufferOps B) (step : GradStep P O B)
    (nSeq seqLen pb mb : ℕ) (n : ℕ) (ls : LoopState P O B) :
    ((List.range n).foldl
        (fun ls2 _ => runEpoch ops step nSeq seqLen pb mb ls2) ls).batch_losses.length =
      ls.batch_losses.length + n * (epochNumBatches pb mb / seqLen) := by
  induction n with
  | zero => simp
  | succ k ih =>
    rw [List.range_succ, List.foldl_append]
    simp only [List.foldl_cons, List.foldl_nil]
    rw [runEpoch_losses_len, ih]
    ring

theorem update_trace_pos (ops : BufferOps B) (step : GradStep P O B)
    (s : BCState P O B) (h : 0 < s.current_lr) :
    (update ops step s).trace =
      (List.replicate s.num_epoch
        (epochEvents s.n_sequences s.sequence_length
          (epochNumBatches (ops.numExp s.demonstration_buffer / s.n_sequences)
            (maxBatches s)))).flatten := by
  rw [update, if_neg (not_le.mpr h)]
  simp [foldl_runEpoch_trace]

theorem update_losses_len_pos (ops : BufferOps B) (step : GradStep P O B)
    (s : BCState P O B) (h : 0 < s.current_lr) :
    (update ops step s).batch_losses.length =
      s.num_epoch *
        (epochNumBatches (ops.numExp s.demonstration_buffer / s.n_sequences)
            (maxBatches s) / s.sequence_length) := by
  rw [update, if_neg (not_le.mpr h)]
  simp [foldl_runEpoch_losses_len]

theorem update_metrics_pos (ops : BufferOps B) (step : GradStep P O B)
    (s : BCState P O B) (h : 0 < s.current_lr) :
    (update ops step s).metrics =
      [(pretrainingLossKey, npMean (update ops step s).batch_losses)] := by
  rw [update, if_neg (not_le.mpr h)]

theorem update_n_sequences_eq (ops : BufferOps B) (step : GradStep P O B)
    (s : BCState P O B) :
    (update ops step s).state.n_sequences = s.n_sequences := by
  by_cases h : s.current_lr ≤ 0 <;> simp [update, h]

theorem update_has_updated_pos (ops : BufferOps B) (step : GradStep P O B)
    (s : BCState P O B) (h : 0 < s.current_lr) :
    (update ops step s).state.has_updated = true := by
  rw [update, if_neg (not_le.mpr h)]

/-! ## Claim theorems -/

/-- C1: whenever `current_lr <= 0`, `update()` returns the single-entry
mapping `Losses/Pretraining Loss -> 0`, leaves the whole module state
(policy parameters, optimizer state, demonstration buffer, `has_updated`)
unchanged, and makes no shuffle or gradient-step call at all. -/
theorem update_zero_lr_frame (ops : BufferOps B) (step : GradStep P O B)
    (s : BCState P O B) (h : s.current_lr ≤ 0) :
    (update ops step s).metrics = [(pretrainingLossKey, some 0)] ∧
    (update ops step s).state = s ∧
    (update ops step s).trace = [] := by
  simp [update, h]

theorem update_zero_lr_frame_witness :
    sNeg.current_lr ≤ 0 ∧
    ((update demoOps demoStep sNeg).metrics = [(pretrainingLossKey, some 0)] ∧
      (update demoOps demoStep sNeg).state = sNeg ∧
      (update demoOps demoStep sNeg).trace = []) :=
  ⟨by decide, update_zero_lr_frame demoOps demoStep sNeg (by decide)⟩

/-- C5: the constructor computes
`n_sequences = max(1, min(batch_size, num_experiences) // sequence_length)`,
so it is always at least 1 (even when the floor division yields 0), and no
`update()` call ever modifies it. -/
theorem n_sequences_ge_one_and_preserved (ops : BufferOps B)
    (settings : BCSettings) (plr : ℚ) (dbs dne sl : ℕ)
    (p : P) (o : O) (b : B) :
    (initModule ops settings plr dbs dne sl p o b).n_sequences =
      max 1 (min (resolveSetting settings.batch_size dbs) (ops.numExp b) / sl) ∧
    1 ≤ (initModule ops settings plr dbs dne sl p o b).n_sequences ∧
    ∀ (step : GradStep P O B) (s : BCState P O B),
      (update ops step s).state.n_sequences = s.n_sequences := by
  refine ⟨by simp [initModule, Nat.max_comm], ?_, fun step s => update_n_sequences_eq ops step s⟩
  simp [initModule]

/-- C8: `has_updated` is `false` after construction, every `update()` call
ends with `has_updated = has_updated_before || (0 < current_lr)`: a call with
positive learning rate sets it, a call with non-positive rate leaves it
untouched, and no call ever resets it to `false`. -/
theorem has_updated_monotone (ops : BufferOps B) (settings : BCSettings)
    (plr : ℚ) (dbs dne sl : ℕ) (p : P) (o : O) (b : B)
    (step : GradStep P O B) (s : BCState P O B) :
    (initModule ops settings plr dbs dne sl p o b).has_updated = false ∧
    (update ops step s).state.has_updated =
      (s.has_updated || decide (0 < s.current_lr)) := by
  refine ⟨rfl, ?_⟩
  by_cases h : s.current_lr ≤ 0
  · have hd : decide (0 < s.current_lr) = false := decide_eq_false (not_lt.mpr h)
    simp [update, h, hd]
  · have hd : decide (0 < s.current_lr) = true := decide_eq_true (not_le.mp h)
    simp [update, h, hd]

/-- C3: `max_batches = samples_per_update // n_sequences`, so whenever
`samples_per_update < n_sequences` (including 0) the division floors to 0 and
the call behaves exactly like the unbounded case `samples_per_update = 0`:
same metrics, same recorded losses, same trace of shuffles and mini-batch
slices, and the same resulting parameters, optimizer state, buffer and
`has_updated`. -/
theorem update_small_samples_unbounded (ops : BufferOps B)
    (step : GradStep P O B) (s : BCState P O B) (h : 0 < s.current_lr)
    (hlt : s.samples_per_update < s.n_sequences) :
    maxBatches s = 0 ∧
    (update ops step s).metrics =
      (update ops step { s with samples_per_update := 0 }).metrics ∧
    (update ops step s).batch_losses =
      (update ops step { s with samples_per_update := 0 }).batch_losses ∧
    (update ops step s).trace =
      (update ops step { s with samples_per_update := 0 }).trace ∧
    (update ops step s).state.params =
      (update ops step { s with samples_per_update := 0 }).state.params ∧
    (update ops step s).state.optState =
      (update ops step { s with samples_per_update := 0 }).state.optState ∧
    (update ops step s).state.demonstration_buffer =
      (update ops step { s with samples_per_update := 0 }).state.demonstration_buffer ∧
    (update ops step s).state.has_updated =
      (update ops step { s with samples_per_update := 0 }).state.has_updated := by
  have h0 : maxBatches s = 0 := Nat.div_eq_of_lt hlt
  have hns : ¬ s.current_lr ≤ 0 := not_le.mpr h
  refine ⟨h0, ?_⟩
  simp [update, maxBatches, hns, Nat.div_eq_of_lt hlt]

theorem update_small_samples_unbounded_witness :
    0 < sDemo.current_lr ∧ sDemo.samples_per_update < sDemo.n_sequences ∧
    (update demoOps demoStep sDemo).trace =
      (update demoOps demoStep { sDemo with samples_per_update := 0 }).trace :=
  ⟨by decide, by decide,
    (update_small_samples_unbounded demoOps demoStep sDemo (by decide)
      (by decide)).2.2.2.1⟩

/-- C4: with a positive learning rate, each of the `num_epoch` epochs first
shuffles the buffer and then runs exactly `num_batches // sequence_length`
gradient steps, the i-th on the slice
`[i * n_sequences * sequence_length, (i+1) * n_sequences * sequence_length)`;
hence every slice bound passed to `make_mini_batch` is a multiple of
`sequence_length`. -/
theorem update_trace_shape (ops : BufferOps B) (step : GradStep P O B)
    (s : BCState P O B) (h : 0 < s.current_lr) :
    (update ops step s).trace =
      (List.replicate s.num_epoch
        (epochEvents s.n_sequences s.sequence_length
          (epochNumBatches (ops.numExp s.demonstration_buffer / s.n_sequences)
            (maxBatches s)))).flatten ∧
    ∀ a b, BCEvent.batchEv a b ∈ (update ops step s).trace →
      s.sequence_length ∣ a ∧ s.sequence_length ∣ b := by
  refine ⟨update_trace_pos ops step s h, fun a b hmem => ?_⟩
  rw [update_trace_pos ops step s h] at hmem
  rw [List.mem_flatten] at hmem
  obtain ⟨l, hl, hev⟩ := hmem
  rw [List.mem_replicate] at hl
  rw [hl.2] at hev
  simp only [epochEvents, List.mem_cons, List.mem_map, List.mem_range] at hev
  rcases hev with hev | ⟨i, _, hev⟩
  · exact absurd hev (by simp)
  · obtain ⟨ha, hb⟩ : i * s.n_sequences * s.sequence_length = a ∧
        (i + 1) * s.n_sequences * s.sequence_length = b := by
      exact ⟨congrArg (fun e => match e with
        | BCEvent.batchEv x _ => x | BCEvent.shuffleEv => 0) hev,
        congrArg (fun e => match e with
        | BCEvent.batchEv _ y => y | BCEvent.shuffleEv => 0) hev⟩
    exact ⟨⟨i * s.n_sequences, by rw [← ha]; ring⟩,
      ⟨(i + 1) * s.n_sequences, by rw [← hb]; ring⟩⟩

theorem update_trace_shape_witness :
    0 < sDemo.current_lr ∧
    ((update demoOps demoStep sDemo).trace =
      (List.replicate sDemo.num_epoch
        (epochEvents sDemo.n_sequences sDemo.sequence_length
          (epochNumBatches
            (demoOps.numExp sDemo.demonstration_buffer / sDemo.n_sequences)
            (maxBatches sDemo)))).flatten ∧
    ∀ a b, BCEvent.batchEv a b ∈ (update demoOps demoStep sDemo).trace →
      sDemo.sequence_length ∣ a ∧ sDemo.sequence_length ∣ b) :=
  ⟨by decide, update_trace_shape demoOps demoStep sDemo (by decide)⟩

/-- C10: with a positive learning rate, every slice passed to
`make_mini_batch` lies inside the buffer: the end index of each recorded
mini-batch slice never exceeds `num_experiences`, because the per-epoch batch
count never exceeds `possible_batches = num_experiences // n_sequences`. -/
theorem update_slices_in_bounds (ops : BufferOps B) (step : GradStep P O B)
    (s : BCState P O B) (h : 0 < s.current_lr) :
    ∀ a b, BCEvent.batchEv a b ∈ (update ops step s).trace →
      a ≤ b ∧ b ≤ ops.numExp s.demonstration_buffer := by
  intro a b hmem
  rw [update_trace_pos ops step s h] at hmem
  rw [List.mem_flatten] at hmem
  obtain ⟨l, hl, hev⟩ := hmem
  rw [List.mem_replicate] at hl
  rw [hl.2] at hev
  simp only [epochEvents, List.mem_cons, List.mem_map, List.mem_range] at hev
  rcases hev with hev | ⟨i, hi, hev⟩
  · exact absurd hev (by simp)
  · obtain ⟨ha, hb⟩ : i * s.n_sequences * s.sequence_length = a ∧
        (i + 1) * s.n_sequences * s.sequence_length = b := by
      exact ⟨congrArg (fun e => match e with
        | BCEvent.batchEv x _ => x | BCEvent.shuffleEv => 0) hev,
        congrArg (fun e => match e with
        | BCEvent.batchEv _ y => y | BCEvent.shuffleEv => 0) hev⟩
    subst ha hb
    set nb := epochNumBatches (ops.numExp s.demonstration_buffer / s.n_sequences)
      (maxBatches s) with hnb
    constructor
    · exact Nat.mul_le_mul_right _ (Nat.mul_le_mul_right _ (Nat.le_succ i))
    · have h1 : (i + 1) * s.sequence_length ≤ nb / s.sequence_length * s.sequence_length :=
        Nat.mul_le_mul_right _ (Nat.succ_le_of_lt hi)
      have h2 : nb / s.sequence_length * s.sequence_length ≤ nb :=
        Nat.div_mul_le_self nb s.sequence_length
      have h3 : nb ≤ ops.numExp s.demonstration_buffer / s.n_sequences := by
        rw [hnb]
        unfold epochNumBatches
        split
        · exact le_rfl
        · exact min_le_left _ _
      calc (i + 1) * s.n_sequences * s.sequence_length
          = (i + 1) * s.sequence_length * s.n_sequences := by ring
        _ ≤ nb * s.n_sequences :=
            Nat.mul_le_mul_right _ (le_trans h1 h2)
        _ ≤ ops.numExp s.demonstration_buffer / s.n_sequences * s.n_sequences :=
            Nat.mul_le_mul_right _ h3
        _ ≤ ops.numExp s.demonstration_buffer :=
            Nat.div_mul_le_self _ _

theorem update_slices_in_bounds_witness :
    0 < sDemo.current_lr ∧
    (BCEvent.batchEv 0 2 ∈ (update demoOps demoStep sDemo).trace →
      0 ≤ 2 ∧ 2 ≤ demoOps.numExp sDemo.demonstration_buffer) :=
  ⟨by decide, update_slices_in_bounds demoOps demoStep sDemo (by decide) 0 2⟩

/-- C9: with a positive learning rate but zero processed mini-batches (which
happens whenever `num_batches < sequence_length`), the recorded loss list is
empty, the returned value is `np.mean` of an empty collection — NaN, not 0 —
and `has_updated` is nonetheless set to `true`. -/
theorem update_empty_mean_nan (ops : BufferOps B) (step : GradStep P O B)
    (s : BCState P O B) (h : 0 < s.current_lr)
    (hz : epochNumBatches (ops.numExp s.demonstration_buffer / s.n_sequences)
        (maxBatches s) < s.sequence_length) :
    (update ops step s).batch_losses = [] ∧
    (update ops step s).metrics = [(pretrainingLossKey, npMean [])] ∧
    npMean [] = none ∧
    npMean [] ≠ some 0 ∧
    (update ops step s).state.has_updated = true := by
  have hlen : (update ops step s).batch_losses.length = 0 := by
    rw [update_losses_len_pos ops step s h, Nat.div_eq_of_lt hz, Nat.mul_zero]
  have hnil : (update ops step s).batch_losses = [] :=
    List.length_eq_zero.mp hlen
  refine ⟨hnil, ?_, rfl, by simp [npMean], update_has_updated_pos ops step s h⟩
  rw [update_metrics_pos ops step s h, hnil]

theorem update_empty_mean_nan_witness :
    0 < sOne.current_lr ∧
    epochNumBatches (zeroOps.numExp sOne.demonstration_buffer / sOne.n_sequences)
        (maxBatches sOne) < sOne.sequence_length ∧
    ((update zeroOps stepZero sOne).metrics = [(pretrainingLossKey, npMean [])] ∧
      (update zeroOps stepZero sOne).state.has_updated = true) :=
  ⟨by decide, by decide,
    ⟨(update_empty_mean_nan zeroOps stepZero sOne (by decide) (by decide)).2.1,
      (update_empty_mean_nan zeroOps stepZero sOne (by decide) (by decide)).2.2.2.2⟩⟩

/-- C6 counterexample: a call with `current_lr > 0` that runs one gradient
step whose recorded loss is 0 also returns the value 0 under
"Losses/Pretraining Loss", so the value 0 is NOT returned exactly when no
gradient steps were taken because of a non-positive learning rate. -/
theorem update_zero_loss_positive_lr_cex :
    0 < sOne.current_lr ∧
    (update oneOps stepZero sOne).metrics = [(pretrainingLossKey, some 0)] ∧
    BCEvent.batchEv 0 1 ∈ (update oneOps stepZero sOne).trace := by
  refine ⟨by decide, ?_, by decide⟩
  have hl : (update oneOps stepZero sOne).batch_losses = [0] := by decide
  rw [update_metrics_pos oneOps stepZero sOne (by decide), hl]
  norm_num [npMean]

/-- C6 amended: every `update()` call returns a mapping whose single key is
"Losses/Pretraining Loss"; with `current_lr > 0` its value is `np.mean` of
the per-mini-batch losses recorded during that call, and with
`current_lr <= 0` the value is 0 and no gradient step or shuffle happens
(the value 0 can, however, also arise from a positive-rate call whose
recorded losses average to zero). -/
theorem update_metrics_amended (ops : BufferOps B) (step : GradStep P O B)
    (s : BCState P O B) :
    (update ops step s).metrics.map Prod.fst = [pretrainingLossKey] ∧
    (0 < s.current_lr →
      (update ops step s).metrics =
        [(pretrainingLossKey, npMean (update ops step s).batch_losses)]) ∧
    (s.current_lr ≤ 0 →
      (update ops step s).metrics = [(pretrainingLossKey, some 0)] ∧
      (update ops step s).trace = []) := by
  by_cases h : s.current_lr ≤ 0
  · refine ⟨by simp [update, h], fun hpos => absurd hpos (not_lt.mpr h), fun _ => ?_⟩
    simp [update, h]
  · refine ⟨?_, fun _ => update_metrics_pos ops step s (not_le.mp h), fun hle => absurd hle h⟩
    rw [update_metrics_pos ops step s (not_le.mp h)]
    rfl

theorem update_metrics_amended_witness :
    0 < sDemo.current_lr ∧
    (update demoOps demoStep sDemo).metrics =
      [(pretrainingLossKey, npMean (update demoOps demoStep sDemo).batch_losses)] :=
  ⟨by decide, (update_metrics_amended demoOps demoStep sDemo).2.1 (by decide)⟩

/-! ## Helper lemmas on the loss functions -/

theorem zipWith_eq_map_zip (f : ℝ → ℝ → ℝ) (xs : List ℝ) : ∀ (ys : List ℝ),
    List.zipWith f xs ys = (xs.zip ys).map (fun p => f p.1 p.2) := by
  induction xs with
  | nil => intro ys; simp
  | cons x xs ih =>
    intro ys
    cases ys with
    | nil => simp
    | cons y ys => simp [List.zip_cons_cons, ih]

theorem matSum_cons (r : List ℝ) (m : List (List ℝ)) :
    matSum (r :: m) = r.sum + matSum m := by
  simp [matSum]

theorem matCount_cons (r : List ℝ) (m : List (List ℝ)) :
    matCount (r :: m) = r.length + matCount m := by
  simp [matCount]

theorem sqDiff_flatten (a : List (List ℝ)) : ∀ (b : List (List ℝ)),
    a.map List.length = b.map List.length →
    matSum (sqDiff a b) =
      ((a.flatten.zip b.flatten).map (fun p => (p.1 - p.2) ^ 2)).sum ∧
    matCount (sqDiff a b) = (a.flatten.zip b.flatten).length := by
  induction a with
  | nil =>
    intro b hb
    cases b with
    | nil => simp [matSum, matCount, sqDiff]
    | cons rb b' => simp at hb
  | cons ra a' ih =>
    intro b hb
    cases b with
    | nil => simp at hb
    | cons rb b' =>
      simp only [List.map_cons, List.cons.injEq] at hb
      obtain ⟨hlen, htail⟩ := hb
      obtain ⟨ihs, ihc⟩ := ih b' htail
      have hz : (ra ++ a'.flatten).zip (rb ++ b'.flatten) =
          ra.zip rb ++ a'.flatten.zip b'.flatten := List.zip_append hlen
      have e1 : sqDiff (ra :: a') (rb :: b') =
          ra.zipWith (fun x y => (x - y) ^ 2) rb :: sqDiff a' b' := rfl
      constructor
      · rw [e1, matSum_cons, ihs, List.flatten_cons, List.flatten_cons, hz,
          List.map_append, List.sum_append, zipWith_eq_map_zip]
      · rw [e1, matCount_cons, ihc, List.flatten_cons, List.flatten_cons, hz,
          List.length_append, zipWith_eq_map_zip, List.length_map]

/-- C7: for a continuous-action policy, the BC loss is exactly the mean
squared error between the sampled and the expert actions: the element-wise
squared differences averaged over all elements. -/
theorem bc_continuous_loss_mse (act_size : List ℕ)
    (sel lp ea : List (List ℝ))
    (h : sel.map List.length = ea.map List.length) :
    behavioral_cloning_loss true act_size sel lp (ExpertActs.cont ea) =
      mseSpec sel ea := by
  obtain ⟨hs, hc⟩ := sqDiff_flatten sel ea h
  simp only [behavioral_cloning_loss, mse_loss, matMean, mseSpec, hs, hc]

theorem bc_continuous_loss_mse_witness :
    ([[(1:ℝ), 2], [3, 4]].map List.length =
      [[(0:ℝ), 2], [1, 1]].map List.length) ∧
    behavioral_cloning_loss true [] [[(1:ℝ), 2], [3, 4]] []
        (ExpertActs.cont [[0, 2], [1, 1]]) =
      mseSpec [[(1:ℝ), 2], [3, 4]] [[0, 2], [1, 1]] :=
  ⟨rfl, bc_continuous_loss_mse [] [[(1:ℝ), 2], [3, 4]] [] [[0, 2], [1, 1]] rfl⟩

/-- C2 counterexample: for a single discrete branch of size 2 and a
single-sample batch with log-probabilities `(0, 0)` and expert one-hot
`(1, 0)`, the loss the code computes is 0 (line 113 applies `log_softmax`
with `dim=0`, i.e. across the batch, and the log-softmax of a one-element
column is identically 0), while the per-sample normalization the claim
describes gives `log 2 / 2`; the two disagree. -/
theorem bc_discrete_loss_dim0_cex :
    behavioral_cloning_loss false [2] [] [[0, 0]] (ExpertActs.disc [[[1, 0]]]) = 0 ∧
    perSampleDiscreteLoss [2] [[0, 0]] [[[1, 0]]] = Real.log 2 / 2 ∧
    behavioral_cloning_loss false [2] [] [[0, 0]] (ExpertActs.disc [[[1, 0]]]) ≠
      perSampleDiscreteLoss [2] [[0, 0]] [[[1, 0]]] := by
  have h1 : behavioral_cloning_loss false [2] [] [[0, 0]]
      (ExpertActs.disc [[[1, 0]]]) = 0 := by
    simp [behavioral_cloning_loss, break_into_branches, splitSizes,
      logSoftmaxDim0, column, logSumExp, negMat, hadamard, stackMean, stackSum,
      stackCount, matSum, matCount, List.range_succ, Real.log_exp]
  have h2 : perSampleDiscreteLoss [2] [[0, 0]] [[[1, 0]]] = Real.log 2 / 2 := by
    simp [perSampleDiscreteLoss, break_into_branches, splitSizes, logSoftmax,
      logSumExp, negMat, hadamard, stackMean, stackSum, stackCount, matSum,
      matCount, List.range_succ]
    norm_num
  refine ⟨h1, h2, ?_⟩
  rw [h1, h2]
  have hpos : 0 < Real.log 2 / 2 := by
    have hl : 0 < Real.log 2 := Real.log_pos (by norm_num)
    linarith
  exact ne_of_lt hpos

/-- C2 amended: in the discrete case the loss is the mean over stacked
branches of `-log_softmax(branch log-probs) * expert_one_hot`, but with the
log-softmax normalizing along `dim=0` — each ACTION's log-probabilities
across the batch — not each sample's over the branch's actions.  Hence for a
single-sample batch the loss is 0 whatever the log-probabilities and expert
one-hot are, and for a single branch of size 2 over a two-sample batch with
expert one-hots `(1,0)` and `(0,1)` it is the column-wise normalization
deficit `((logsumexp(a,c) - a) + (logsumexp(b,d) - d)) / 4`, not the
per-sample cross-entropy averaged over the batch. -/
theorem bc_discrete_loss_dim0_amended (a b c d u v : ℝ) :
    behavioral_cloning_loss false [2] [] [[a, b]] (ExpertActs.disc [[[u, v]]]) = 0 ∧
    behavioral_cloning_loss false [2] [] [[a, b], [c, d]]
        (ExpertActs.disc [[[1, 0], [0, 1]]]) =
      ((logSumExp [a, c] - a) + (logSumExp [b, d] - d)) / 4 := by
  constructor
  · simp [behavioral_cloning_loss, break_into_branches, splitSizes,
      logSoftmaxDim0, column, logSumExp, negMat, hadamard, stackMean, stackSum,
      stackCount, matSum, matCount, List.range_succ, Real.log_exp]
  · simp [behavioral_cloning_loss, break_into_branches, splitSizes,
      logSoftmaxDim0, column, logSumExp, negMat, hadamard, stackMean, stackSum,
      stackCount, matSum, matCount, List.range_succ]

end MLAgentsBC
